import Mathlib

/-!
Verification of the cube-mechanics engine of the Rubik's cube repository
(`src/components/RubiksCube.tsx`, `src/types.ts` bundled at the tail of that
file, and the single-file bundle `src/unnamed/part_000`).

Embedding conventions:
* JavaScript numbers are modelled as exact rationals (`ℚ`); the engine's
  arithmetic is plain field arithmetic, rounding (`Math.round`, which rounds
  halves toward positive infinity, exactly as Mathlib's `round` does on `ℚ`)
  and absolute values, all of which are exact here.
* `Math.PI / 2` is modelled by the constant `halfPi`, the exact rational value
  of the IEEE-754 double `Math.PI / 2` used by the source.
* A cubie's render-state is its world position (a `Vec3`) and its world
  orientation.  The source stores orientation as three.js Euler angles; every
  orientation reachable by the engine is a composition of exact quarter turns,
  so it is faithfully represented by its rotation matrix, given by the images
  of the three basis vectors (`Orient`).  A quarter turn about a coordinate
  axis has cosine 0 and sine ±1, so all matrix entries stay exact.
* The per-move pipeline `startMove` (slice selection, re-parenting to the
  pivot) … animation … `finishMove` (rotation forced to exactly 90°·direction,
  re-parenting back, grid snap) has the net effect on each selected cubie of
  one exact quarter-turn rotation about the move axis followed by the snap;
  `applyMove` below is that net effect, with the slice selection taken
  verbatim from `getCubiesInSlice`.
-/

/-- `CUBE_GAP` from `types.ts`: the gap between adjacent cubies. -/
def CUBE_GAP : ℚ := 1 / 50

/-- The grid pitch `1 + CUBE_GAP` used throughout the source. -/
def gridSize : ℚ := 1 + CUBE_GAP

/-- Exact rational value of the IEEE-754 double `Math.PI / 2`. -/
def halfPi : ℚ := 884279719003555 / 562949953421312

/-- The three coordinate axes, the `Axis` type of `types.ts`. -/
inductive Axis where
  | x
  | y
  | z
deriving DecidableEq

/-- A 3-component vector of exact rationals (three.js `Vector3` / `Euler`). -/
structure Vec3 where
  x : ℚ
  y : ℚ
  z : ℚ
deriving DecidableEq

/-- Component of a vector along an axis (the source's dynamic field access
`pos[axis]`). -/
def axisCoord (a : Axis) (v : Vec3) : ℚ :=
  match a with
  | .x => v.x
  | .y => v.y
  | .z => v.z

/-- The `Move` record of `types.ts`: axis, slice index and turn direction.
`slice` and `direction` are JavaScript numbers; the legal values are
`slice ∈ {-1,0,1}` and `direction ∈ {1,-1}`. -/
structure Move where
  axis : Axis
  slice : ℚ
  direction : ℚ
deriving DecidableEq

/-- A queued move: a `Move` plus its animation speed multiplier, the element
type of `moveQueue` in `RubiksCube.tsx`. -/
structure QueuedMove where
  move : Move
  speed : ℚ
deriving DecidableEq

/-- The apostrophe character, used as the prime suffix of cube move tokens. -/
def primeChar : Char := Char.ofNat 39

/-- JavaScript `String.prototype.replace` with a plain string pattern replaces
only the first occurrence; this is that operation for a one-character pattern,
on the character list of the string. -/
def removeFirst (c : Char) : List Char → List Char
  | [] => []
  | a :: rest => if a = c then rest else a :: removeFirst c rest

/-- `getMoveFromNotation` from `types.ts` (lines 598–633 of the
`RubiksCube.tsx` bundle): maps a token such as `R` or `R`-prime to a `Move`.
Strings are handled through their character lists: `includes` of the
one-character prime pattern is a character search, and `replace` of that
pattern by the empty string drops its first occurrence.  The `switch` on the
base token is embedded as the equivalent chain of equality tests, and the
prime suffix negates the direction afterwards. -/
def getMove (token : String) : Move :=
  let isPrime : Bool := token.data.any (fun a => a = primeChar)
  let base : List Char := removeFirst primeChar token.data
  let move : Move :=
    if base = "R".data then ⟨Axis.x, 1, -1⟩
    else if base = "L".data then ⟨Axis.x, -1, 1⟩
    else if base = "U".data then ⟨Axis.y, 1, -1⟩
    else if base = "D".data then ⟨Axis.y, -1, 1⟩
    else if base = "F".data then ⟨Axis.z, 1, -1⟩
    else if base = "B".data then ⟨Axis.z, -1, 1⟩
    else if base = "M".data then ⟨Axis.x, 0, 1⟩
    else if base = "E".data then ⟨Axis.y, 0, 1⟩
    else if base = "S".data then ⟨Axis.z, 0, -1⟩
    else ⟨Axis.x, 0, 1⟩
  if isPrime then { move with direction := move.direction * -1 } else move

/-- `getMoveFromNotation` as defined in the single-file bundle
`src/unnamed/part_000` (lines 37–58).  This copy diverges from the `types.ts`
copy: its `switch` has only the R, L, U, D, F, B cases, so the base tokens
M, E and S hit the silent fallback `{axis: x, slice: 0, direction: +1}`.
Everything else (prime handling, fallback) is identical. -/
def getMoveBundle (token : String) : Move :=
  let isPrime : Bool := token.data.any (fun a => a = primeChar)
  let base : List Char := removeFirst primeChar token.data
  let move : Move :=
    if base = "R".data then ⟨Axis.x, 1, -1⟩
    else if base = "L".data then ⟨Axis.x, -1, 1⟩
    else if base = "U".data then ⟨Axis.y, 1, -1⟩
    else if base = "D".data then ⟨Axis.y, -1, 1⟩
    else if base = "F".data then ⟨Axis.z, 1, -1⟩
    else if base = "B".data then ⟨Axis.z, -1, 1⟩
    else ⟨Axis.x, 0, 1⟩
  if isPrime then { move with direction := move.direction * -1 } else move

/-- The snap helper from `finishMove`:
`const snap = (val, grid) => Math.round(val / grid) * grid`. -/
def snap (val g : ℚ) : ℚ := (round (val / g) : ℚ) * g

/-- Position snap of `finishMove`: each component to the nearest multiple of
`1 + CUBE_GAP`. -/
def snapVec (p : Vec3) : Vec3 :=
  ⟨snap p.x gridSize, snap p.y gridSize, snap p.z gridSize⟩

/-- Rotation snap of `finishMove`: each Euler angle to the nearest multiple
of 90 degrees (`Math.round(rot / (Math.PI / 2)) * (Math.PI / 2)`). -/
def snapRotVec (r : Vec3) : Vec3 :=
  ⟨snap r.x halfPi, snap r.y halfPi, snap r.z halfPi⟩

lemma snap_idem (val : ℚ) {g : ℚ} (hg : g ≠ 0) : snap (snap val g) g = snap val g := by
  unfold snap
  rw [mul_div_cancel_right₀ _ hg, round_intCast]

/-- The primed form of a token: the token with the apostrophe appended. -/
def primed (s : String) : String := ⟨s.data ++ [primeChar]⟩

/-- Counterexample to C2 as stated: the claim asserts the full table for
`getMoveFromNotation` and cites, among its sources, the copy in
`src/unnamed/part_000` (lines 37–58).  That copy has no E or S case, so at
the tokens E and S it returns the fallback `(x, 0, +1)` instead of the
table's `(y, 0, +1)` and `(z, 0, -1)`. -/
theorem notation_table_cex :
    getMoveBundle "E" = ⟨Axis.x, 0, 1⟩ ∧ getMoveBundle "E" ≠ ⟨Axis.y, 0, 1⟩ ∧
    getMoveBundle "S" = ⟨Axis.x, 0, 1⟩ ∧ getMoveBundle "S" ≠ ⟨Axis.z, 0, -1⟩ := by
  with_unfolding_all decide

/-- C2 (amended): the repository has two copies of `getMoveFromNotation`.
The `types.ts` copy (`getMove`) maps every token in {R,L,U,D,F,B,M,E,S} to
the table's `(axis, slice, direction)` triple, a prime suffix negates the
direction, and every unrecognized base token silently falls back to
`{axis: x, slice: 0, direction: +1}` (direction negated if primed).  The
`src/unnamed/part_000` copy (`getMoveBundle`) agrees on {R,L,U,D,F,B} and
their primed forms and has the same fallback, but lacks the M, E, S cases:
those base tokens take the fallback, so M still coincidentally yields the
table value `(x, 0, +1)` while E and S yield `(x, 0, +1)` instead of the
table's `(y, 0, +1)` and `(z, 0, -1)`. -/
theorem notation_table :
    (getMove "R" = ⟨Axis.x, 1, -1⟩ ∧ getMove "L" = ⟨Axis.x, -1, 1⟩ ∧
     getMove "U" = ⟨Axis.y, 1, -1⟩ ∧ getMove "D" = ⟨Axis.y, -1, 1⟩ ∧
     getMove "F" = ⟨Axis.z, 1, -1⟩ ∧ getMove "B" = ⟨Axis.z, -1, 1⟩ ∧
     getMove "M" = ⟨Axis.x, 0, 1⟩ ∧ getMove "E" = ⟨Axis.y, 0, 1⟩ ∧
     getMove "S" = ⟨Axis.z, 0, -1⟩) ∧
    (getMove (primed "R") = ⟨Axis.x, 1, 1⟩ ∧
     getMove (primed "L") = ⟨Axis.x, -1, -1⟩ ∧
     getMove (primed "U") = ⟨Axis.y, 1, 1⟩ ∧
     getMove (primed "D") = ⟨Axis.y, -1, -1⟩ ∧
     getMove (primed "F") = ⟨Axis.z, 1, 1⟩ ∧
     getMove (primed "B") = ⟨Axis.z, -1, -1⟩ ∧
     getMove (primed "M") = ⟨Axis.x, 0, -1⟩ ∧
     getMove (primed "E") = ⟨Axis.y, 0, -1⟩ ∧
     getMove (primed "S") = ⟨Axis.z, 0, 1⟩) ∧
    (∀ token : String,
      (removeFirst primeChar token.data ≠ "R".data ∧
       removeFirst primeChar token.data ≠ "L".data ∧
       removeFirst primeChar token.data ≠ "U".data ∧
       removeFirst primeChar token.data ≠ "D".data ∧
       removeFirst primeChar token.data ≠ "F".data ∧
       removeFirst primeChar token.data ≠ "B".data ∧
       removeFirst primeChar token.data ≠ "M".data ∧
       removeFirst primeChar token.data ≠ "E".data ∧
       removeFirst primeChar token.data ≠ "S".data) →
      getMove token =
        ⟨Axis.x, 0, if token.data.any (fun a => a = primeChar) then -1 else 1⟩) ∧
    (getMoveBundle "R" = ⟨Axis.x, 1, -1⟩ ∧ getMoveBundle "L" = ⟨Axis.x, -1, 1⟩ ∧
     getMoveBundle "U" = ⟨Axis.y, 1, -1⟩ ∧ getMoveBundle "D" = ⟨Axis.y, -1, 1⟩ ∧
     getMoveBundle "F" = ⟨Axis.z, 1, -1⟩ ∧ getMoveBundle "B" = ⟨Axis.z, -1, 1⟩ ∧
     getMoveBundle (primed "R") = ⟨Axis.x, 1, 1⟩ ∧
     getMoveBundle (primed "L") = ⟨Axis.x, -1, -1⟩ ∧
     getMoveBundle (primed "U") = ⟨Axis.y, 1, 1⟩ ∧
     getMoveBundle (primed "D") = ⟨Axis.y, -1, -1⟩ ∧
     getMoveBundle (primed "F") = ⟨Axis.z, 1, 1⟩ ∧
     getMoveBundle (primed "B") = ⟨Axis.z, -1, -1⟩ ∧
     getMoveBundle "M" = ⟨Axis.x, 0, 1⟩ ∧
     getMoveBundle "E" = ⟨Axis.x, 0, 1⟩ ∧
     getMoveBundle "S" = ⟨Axis.x, 0, 1⟩) ∧
    (∀ token : String,
      (removeFirst primeChar token.data ≠ "R".data ∧
       removeFirst primeChar token.data ≠ "L".data ∧
       removeFirst primeChar token.data ≠ "U".data ∧
       removeFirst primeChar token.data ≠ "D".data ∧
       removeFirst primeChar token.data ≠ "F".data ∧
       removeFirst primeChar token.data ≠ "B".data) →
      getMoveBundle token =
        ⟨Axis.x, 0, if token.data.any (fun a => a = primeChar) then -1 else 1⟩) := by
  refine ⟨by with_unfolding_all decide, by with_unfolding_all decide, ?_,
    by with_unfolding_all decide, ?_⟩
  · intro token h
    obtain ⟨h1, h2, h3, h4, h5, h6, h7, h8, h9⟩ := h
    unfold getMove
    simp only [if_neg h1, if_neg h2, if_neg h3, if_neg h4, if_neg h5, if_neg h6,
      if_neg h7, if_neg h8, if_neg h9]
    by_cases hp : token.data.any (fun a => a = primeChar) <;> simp [hp]
  · intro token h
    obtain ⟨h1, h2, h3, h4, h5, h6⟩ := h
    unfold getMoveBundle
    simp only [if_neg h1, if_neg h2, if_neg h3, if_neg h4, if_neg h5, if_neg h6]
    by_cases hp : token.data.any (fun a => a = primeChar) <;> simp [hp]

/-- Witness for the fallback clauses of the amended C2: the unrecognized
token "X" in the `types.ts` copy, and the token "E" (unrecognized there) in
the `part_000` copy. -/
theorem notation_table_witness :
    (getMove "X" =
      ⟨Axis.x, 0, if ("X").data.any (fun a => a = primeChar) then -1 else 1⟩) ∧
    (getMoveBundle "E" =
      ⟨Axis.x, 0, if ("E").data.any (fun a => a = primeChar) then -1 else 1⟩) :=
  ⟨notation_table.2.2.1 "X" (by with_unfolding_all decide),
   notation_table.2.2.2.2 "E" (by with_unfolding_all decide)⟩

/-- C7: the snapping performed by `finishMove` (positions to the nearest
multiple of `1 + CUBE_GAP`, Euler angles to the nearest multiple of 90
degrees, via `round(value / grid) * grid`) is idempotent: applying it twice
equals applying it once. -/
theorem snap_idempotent (p r : Vec3) :
    snapVec (snapVec p) = snapVec p ∧ snapRotVec (snapRotVec r) = snapRotVec r := by
  constructor
  · unfold snapVec
    have hg : gridSize ≠ 0 := by norm_num [gridSize, CUBE_GAP]
    simp [snap_idem _ hg]
  · unfold snapRotVec
    have hg : halfPi ≠ 0 := by norm_num [halfPi]
    simp [snap_idem _ hg]

/-- The loop bounds of the cubie initialization: `x`, `y`, `z` each range over
`{-1, 0, 1}`, in this order. -/
def coordRange : List ℚ := [-1, 0, 1]

/-- The `CubieData` record of `types.ts`. -/
structure CubieData where
  id : ℕ
  position : Vec3
  rotation : Vec3
  initialPosition : Vec3
deriving DecidableEq

/-- The cubie initialization effect of `RubiksCube.tsx` (lines 47–63): the
triple loop `x` outer, `y` middle, `z` inner over `{-1,0,1}`, pushing a record
with the next `id` (starting at 0, i.e. the list index), scaled `position`,
zero `rotation` and integer `initialPosition`. -/
def initCubies : List CubieData :=
  ((coordRange.flatMap fun x => coordRange.flatMap fun y => coordRange.map fun z =>
      (⟨x, y, z⟩ : Vec3))).mapIdx fun i t =>
    ⟨i, ⟨t.x * gridSize, t.y * gridSize, t.z * gridSize⟩, ⟨0, 0, 0⟩, t⟩

/-- C5: initialization produces exactly 27 records, with ids equal to their
index (increasing from 0 in x-outer, y-middle, z-inner order), position the
`(1 + CUBE_GAP)`-scaled initial position, zero rotation, and the 27
`initialPosition` values exactly the Cartesian cube `{-1,0,1}` cubed (in the
nested iteration order) with no repeats. -/
theorem cubie_initialization :
    initCubies.length = 27 ∧
    (∀ i : Fin initCubies.length,
      (initCubies.get i).id = i.val ∧
      (initCubies.get i).position =
        ⟨(initCubies.get i).initialPosition.x * gridSize,
         (initCubies.get i).initialPosition.y * gridSize,
         (initCubies.get i).initialPosition.z * gridSize⟩ ∧
      (initCubies.get i).rotation = ⟨0, 0, 0⟩) ∧
    (initCubies.map CubieData.initialPosition =
      coordRange.flatMap fun x => coordRange.flatMap fun y => coordRange.map fun z =>
        (⟨x, y, z⟩ : Vec3)) ∧
    (initCubies.map CubieData.initialPosition).Nodup := by
  with_unfolding_all decide

/-- World orientation of a cubie as a rotation matrix, stored as the images
`ex`, `ey`, `ez` of the three basis vectors.  This represents the three.js
Euler-angle rotation state exactly, since every orientation the engine
produces is a composition of exact quarter turns. -/
structure Orient where
  ex : Vec3
  ey : Vec3
  ez : Vec3
deriving DecidableEq

/-- The identity orientation (Euler angles `(0,0,0)` in the source). -/
def idOrient : Orient := ⟨⟨1, 0, 0⟩, ⟨0, 1, 0⟩, ⟨0, 0, 1⟩⟩

/-- Rotation of a vector about a coordinate axis by the quarter-turn angle
`90° · d` (`d = ±1`): the three.js rotation matrix with cosine `0` and sine
`d`.  This is the exact value of the pivot rotation `finishMove` commits
(`pivot.rotation[axis] = (Math.PI / 2) * direction`). -/
def rotVec (a : Axis) (d : ℚ) (v : Vec3) : Vec3 :=
  match a with
  | .x => ⟨v.x, -d * v.z, d * v.y⟩
  | .y => ⟨d * v.z, v.y, -d * v.x⟩
  | .z => ⟨-d * v.y, d * v.x, v.z⟩

/-- Rotating an orientation: compose the quarter turn with the orientation,
i.e. rotate each basis-vector image. -/
def rotOrient (a : Axis) (d : ℚ) (o : Orient) : Orient :=
  ⟨rotVec a d o.ex, rotVec a d o.ey, rotVec a d o.ez⟩

/-- Render-state of one cubie mesh: world position and world orientation. -/
structure Cubie where
  position : Vec3
  orient : Orient
deriving DecidableEq

/-- The render-state of the 27 cubie meshes, indexed as in `cubieRefs`. -/
def CubeState := Fin 27 → Cubie

lemma initCubies_length : initCubies.length = 27 := by with_unfolding_all decide

/-- The initial render-state: each mesh at its initialized position with zero
rotation. -/
def initState : CubeState := fun i =>
  ⟨(initCubies.get (Fin.cast initCubies_length.symm i)).position, idOrient⟩

/-- The slice-membership test of `getCubiesInSlice` (`RubiksCube.tsx` lines
65–86): normalize the world coordinate along the axis by `1 + CUBE_GAP` and
compare to the slice index with tolerance `epsilon = 0.1`. -/
def inSlice (a : Axis) (s : ℚ) (p : Vec3) : Prop :=
  |axisCoord a p / gridSize - s| < 1 / 10

instance (a : Axis) (s : ℚ) (p : Vec3) : Decidable (inSlice a s p) := by
  unfold inSlice
  infer_instance

/-- `getCubiesInSlice`: the indices (in increasing order) of the cubies whose
current world coordinate along `a`, normalized by `1 + CUBE_GAP`, is within
`0.1` of the slice index. -/
def getCubiesInSlice (st : CubeState) (a : Axis) (s : ℚ) : List (Fin 27) :=
  (List.finRange 27).filter fun i => decide (inSlice a s ((st i).position))

/-- The reversal of a move used by the reset replay in `App.tsx`
(`direction: m.direction * -1`). -/
def invMove (m : Move) : Move := { m with direction := m.direction * -1 }

/-- Net effect of a completed move on one selected cubie: the exact
quarter-turn rotation of its world transform about the pivot origin, followed
by the grid snap of `finishMove`.  (The Euler-angle snap is the identity on
the exact quarter-turn orientations of this model.) -/
def rotateCubie (a : Axis) (d : ℚ) (c : Cubie) : Cubie :=
  ⟨snapVec (rotVec a d c.position), rotOrient a d c.orient⟩

/-- Net effect of one queued move run to completion
(`startMove` … animation … `finishMove`): every cubie currently in the slice
is rotated a quarter turn about the move axis and snapped; all others are
untouched. -/
def applyMove (m : Move) (st : CubeState) : CubeState := fun i =>
  if inSlice m.axis m.slice ((st i).position) then
    rotateCubie m.axis m.direction (st i)
  else st i

/-- Running a list of moves to completion in order. -/
def applyMoves (ms : List Move) (st : CubeState) : CubeState :=
  ms.foldl (fun s m => applyMove m s) st

/-- The reset sequence of `App.tsx` `handleReset`: the history reversed, each
move with its direction negated. -/
def invSeq (ms : List Move) : List Move := ms.reverse.map invMove

/-- A coordinate on the snapped one-dimensional lattice `{-1,0,1}·(1+gap)`. -/
def IsLat (c : ℚ) : Prop := c = -gridSize ∨ c = 0 ∨ c = gridSize

instance (c : ℚ) : Decidable (IsLat c) := by
  unfold IsLat
  infer_instance

/-- A position on the snapped cubie lattice. -/
def LatticeVec (p : Vec3) : Prop := IsLat p.x ∧ IsLat p.y ∧ IsLat p.z

instance (p : Vec3) : Decidable (LatticeVec p) := by
  unfold LatticeVec
  infer_instance

/-- All 27 cubie meshes sit on the snapped lattice (true at rest). -/
def LatticeState (st : CubeState) : Prop := ∀ i, LatticeVec (st i).position

instance (st : CubeState) : Decidable (LatticeState st) := by
  unfold LatticeState
  exact Fintype.decidableForallFintype

lemma isLat_smul {d c : ℚ} (hd : d = 1 ∨ d = -1) (h : IsLat c) : IsLat (d * c) := by
  rcases hd with hd | hd <;> subst hd <;>
    rcases h with h | h | h <;> subst h <;> norm_num [IsLat]

lemma lat_rotVec {d : ℚ} (a : Axis) (hd : d = 1 ∨ d = -1) {p : Vec3}
    (hp : LatticeVec p) : LatticeVec (rotVec a d p) := by
  obtain ⟨h1, h2, h3⟩ := hp
  have hd' : -d = 1 ∨ -d = -1 := by rcases hd with hd | hd <;> subst hd <;> norm_num
  cases a
  · exact ⟨h1, isLat_smul hd' h3, isLat_smul hd h2⟩
  · exact ⟨isLat_smul hd h3, h2, isLat_smul hd' h1⟩
  · exact ⟨isLat_smul hd' h2, isLat_smul hd h1, h3⟩

lemma snap_lat {c : ℚ} (h : IsLat c) : snap c gridSize = c := by
  rcases h with h | h | h <;> subst h <;> with_unfolding_all decide

lemma snapVec_lat {p : Vec3} (hp : LatticeVec p) : snapVec p = p := by
  obtain ⟨p1, p2, p3⟩ := p
  obtain ⟨h1, h2, h3⟩ := hp
  simp only [snapVec, snap_lat h1, snap_lat h2, snap_lat h3]

lemma axisCoord_rotVec (a : Axis) (d : ℚ) (v : Vec3) :
    axisCoord a (rotVec a d v) = axisCoord a v := by
  cases a <;> rfl

lemma rotVec_inv {d : ℚ} (a : Axis) (hd : d = 1 ∨ d = -1) (v : Vec3) :
    rotVec a (d * -1) (rotVec a d v) = v := by
  rcases hd with hd | hd <;> subst hd <;> cases a <;> obtain ⟨vx, vy, vz⟩ := v <;>
    simp [rotVec, Vec3.mk.injEq]

lemma rotOrient_inv {d : ℚ} (a : Axis) (hd : d = 1 ∨ d = -1) (o : Orient) :
    rotOrient a (d * -1) (rotOrient a d o) = o := by
  obtain ⟨o1, o2, o3⟩ := o
  simp only [rotOrient, rotVec_inv a hd]

lemma rotateCubie_inv {d : ℚ} (a : Axis) (hd : d = 1 ∨ d = -1) {c : Cubie}
    (hp : LatticeVec c.position) : rotateCubie a (d * -1) (rotateCubie a d c) = c := by
  obtain ⟨p, o⟩ := c
  simp only [rotateCubie]
  rw [snapVec_lat (lat_rotVec a hd hp), rotVec_inv a hd, rotOrient_inv a hd,
    snapVec_lat hp]

lemma inSlice_rotateCubie {d : ℚ} (a : Axis) (s : ℚ) (hd : d = 1 ∨ d = -1)
    {c : Cubie} (hp : LatticeVec c.position) :
    inSlice a s ((rotateCubie a d c).position) ↔ inSlice a s c.position := by
  unfold rotateCubie inSlice
  rw [snapVec_lat (lat_rotVec a hd hp), axisCoord_rotVec]

lemma applyMove_lat {m : Move} (hd : m.direction = 1 ∨ m.direction = -1)
    {st : CubeState} (hst : LatticeState st) : LatticeState (applyMove m st) := by
  intro i
  unfold applyMove
  split
  · have h := lat_rotVec m.axis hd (hst i)
    show LatticeVec (snapVec (rotVec m.axis m.direction (st i).position))
    rw [snapVec_lat h]
    exact h
  · exact hst i

lemma applyMove_inv {m : Move} (hd : m.direction = 1 ∨ m.direction = -1)
    {st : CubeState} (hst : LatticeState st) :
    applyMove (invMove m) (applyMove m st) = st := by
  funext i
  show (if inSlice m.axis m.slice ((applyMove m st i).position) then
      rotateCubie m.axis (m.direction * -1) (applyMove m st i)
    else applyMove m st i) = st i
  by_cases hin : inSlice m.axis m.slice ((st i).position)
  · have h1 : applyMove m st i = rotateCubie m.axis m.direction (st i) := by
      simp [applyMove, hin]
    rw [h1, if_pos ((inSlice_rotateCubie m.axis m.slice hd (hst i)).mpr hin)]
    exact rotateCubie_inv m.axis hd (hst i)
  · have h1 : applyMove m st i = st i := by
      simp [applyMove, hin]
    rw [h1, if_neg hin]

lemma applyMoves_append (l1 l2 : List Move) (st : CubeState) :
    applyMoves (l1 ++ l2) st = applyMoves l2 (applyMoves l1 st) := by
  simp [applyMoves, List.foldl_append]

lemma roundtrip_of_lattice :
    ∀ (ms : List Move) (st : CubeState), LatticeState st →
      (∀ m ∈ ms, m.direction = 1 ∨ m.direction = -1) →
      applyMoves (invSeq ms) (applyMoves ms st) = st := by
  intro ms
  induction ms with
  | nil => intro st _ _; rfl
  | cons m ms ih =>
    intro st hst hd
    have hseq : invSeq (m :: ms) = invSeq ms ++ [invMove m] := by
      simp [invSeq]
    have h1 : applyMoves (m :: ms) st = applyMoves ms (applyMove m st) := rfl
    rw [hseq, h1, applyMoves_append,
      ih (applyMove m st) (applyMove_lat (hd m (by simp)) hst)
        (fun m' hm' => hd m' (by simp [hm']))]
    exact applyMove_inv (hd m (by simp)) hst

lemma initState_lattice : LatticeState initState := by
  with_unfolding_all decide

/-- C1: for every sequence of legal moves applied from the solved state,
replaying the sequence in reverse order with each direction negated (exactly
the reset sequence built in `App.tsx` `handleReset`) returns every cubie to
its pre-sequence position and orientation; in particular one move followed by
its primed counterpart restores the state. -/
theorem reset_roundtrip (ms : List Move)
    (h : ∀ m ∈ ms, m.direction = 1 ∨ m.direction = -1) :
    applyMoves (invSeq ms) (applyMoves ms initState) = initState :=
  roundtrip_of_lattice ms initState initState_lattice h

/-- Witness for C1 at the single move `R` (axis x, slice 1, direction -1):
`R` then `R`-primed restores the solved state. -/
theorem reset_roundtrip_witness :
    (∀ m ∈ [(⟨Axis.x, 1, -1⟩ : Move)], m.direction = 1 ∨ m.direction = -1) ∧
    applyMoves (invSeq [(⟨Axis.x, 1, -1⟩ : Move)])
      (applyMoves [(⟨Axis.x, 1, -1⟩ : Move)] initState) = initState :=
  ⟨by with_unfolding_all decide,
   reset_roundtrip [(⟨Axis.x, 1, -1⟩ : Move)] (by with_unfolding_all decide)⟩

lemma mem_getCubiesInSlice (st : CubeState) (a : Axis) (s : ℚ) (i : Fin 27) :
    i ∈ getCubiesInSlice st a s ↔ inSlice a s ((st i).position) := by
  simp [getCubiesInSlice, List.mem_filter, List.mem_finRange]

/-- A cube in canonical (snapped) state: every mesh on the lattice, and no
two meshes at the same point.  (With 27 meshes and 27 lattice points this
makes the positions a bijection onto the lattice.) -/
def CanonicalState (st : CubeState) : Prop :=
  (∀ i, LatticeVec (st i).position) ∧
  ∀ i j : Fin 27, (st i).position = (st j).position → i = j

/-- The 27 lattice points, enumerated. -/
def latList : List Vec3 :=
  coordRange.flatMap fun x => coordRange.flatMap fun y => coordRange.map fun z =>
    (⟨x * gridSize, y * gridSize, z * gridSize⟩ : Vec3)

/-- The 27 lattice points as a finite set. -/
def latPts : Finset Vec3 := latList.toFinset

lemma mem_latPts {p : Vec3} (hp : LatticeVec p) : p ∈ latPts := by
  obtain ⟨px, py, pz⟩ := p
  obtain ⟨h1, h2, h3⟩ := hp
  rcases h1 with rfl | rfl | rfl <;> rcases h2 with rfl | rfl | rfl <;>
    rcases h3 with rfl | rfl | rfl <;> with_unfolding_all decide

lemma card_latPts : latPts.card = 27 := by with_unfolding_all decide

/-- The lattice points of one slice. -/
def slicePts (a : Axis) (s : ℚ) : Finset Vec3 :=
  latPts.filter fun p => axisCoord a p = s * gridSize

lemma card_slicePts (a : Axis) {s : ℚ} (hs : s = -1 ∨ s = 0 ∨ s = 1) :
    (slicePts a s).card = 9 := by
  rcases hs with rfl | rfl | rfl <;> cases a <;> with_unfolding_all decide

lemma isLat_axisCoord (a : Axis) {p : Vec3} (hp : LatticeVec p) :
    IsLat (axisCoord a p) := by
  cases a
  · exact hp.1
  · exact hp.2.1
  · exact hp.2.2

lemma inSlice_lat {c : ℚ} (hc : IsLat c) {s : ℚ} (hs : s = -1 ∨ s = 0 ∨ s = 1) :
    (|c / gridSize - s| < 1 / 10) ↔ c = s * gridSize := by
  rcases hc with rfl | rfl | rfl <;> rcases hs with rfl | rfl | rfl <;>
    with_unfolding_all decide

lemma inSlice_iff_eq {p : Vec3} (hp : LatticeVec p) (a : Axis) {s : ℚ}
    (hs : s = -1 ∨ s = 0 ∨ s = 1) :
    inSlice a s p ↔ axisCoord a p = s * gridSize :=
  inSlice_lat (isLat_axisCoord a hp) hs

lemma length_getCubiesInSlice {st : CubeState} (hc : CanonicalState st)
    (a : Axis) {s : ℚ} (hs : s = -1 ∨ s = 0 ∨ s = 1) :
    (getCubiesInSlice st a s).length = 9 := by
  classical
  obtain ⟨hlat, hinj⟩ := hc
  have hnd : (getCubiesInSlice st a s).Nodup :=
    (List.nodup_finRange 27).filter _
  rw [← List.toFinset_card_of_nodup hnd]
  have hset : (getCubiesInSlice st a s).toFinset =
      Finset.univ.filter (fun i => inSlice a s ((st i).position)) := by
    ext i
    simp [mem_getCubiesInSlice]
  rw [hset, ← card_slicePts a hs]
  have himg : Finset.univ.image (fun i : Fin 27 => (st i).position) = latPts := by
    apply Finset.eq_of_subset_of_card_le
    · intro q hq
      obtain ⟨i, _, rfl⟩ := Finset.mem_image.mp hq
      exact mem_latPts (hlat i)
    · rw [Finset.card_image_of_injective _ (fun i j h => hinj i j h)]
      simp [card_latPts]
  apply Finset.card_bij (fun i _ => (st i).position)
  · intro i hi
    rw [Finset.mem_filter] at hi
    unfold slicePts
    rw [Finset.mem_filter]
    exact ⟨mem_latPts (hlat i), (inSlice_iff_eq (hlat i) a hs).mp hi.2⟩
  · intro i _ j _ h
    exact hinj i j h
  · intro q hq
    unfold slicePts at hq
    rw [Finset.mem_filter] at hq
    have : q ∈ Finset.univ.image (fun i : Fin 27 => (st i).position) :=
      himg.symm ▸ hq.1
    obtain ⟨i, _, rfl⟩ := Finset.mem_image.mp this
    refine ⟨i, ?_, rfl⟩
    rw [Finset.mem_filter]
    exact ⟨Finset.mem_univ i, (inSlice_iff_eq (hlat i) a hs).mpr hq.2⟩

/-- C4: `getCubiesInSlice` includes a cubie exactly when its current world
coordinate along the axis, divided by `1 + CUBE_GAP`, differs from the slice
index by strictly less than `0.1`; and on a cube in canonical (snapped)
state, for every axis and every slice index in `{-1,0,1}`, it returns
exactly 9 distinct indices. -/
theorem slice_selection (st : CubeState) (a : Axis) (s : ℚ) :
    (∀ i : Fin 27, i ∈ getCubiesInSlice st a s ↔
      |axisCoord a ((st i).position) / gridSize - s| < 1 / 10) ∧
    (CanonicalState st → (s = -1 ∨ s = 0 ∨ s = 1) →
      (getCubiesInSlice st a s).length = 9 ∧ (getCubiesInSlice st a s).Nodup) := by
  constructor
  · intro i
    exact mem_getCubiesInSlice st a s i
  · intro hc hs
    exact ⟨length_getCubiesInSlice hc a hs, (List.nodup_finRange 27).filter _⟩

/-- Witness for C4 on the freshly initialized (canonical) cube, axis x,
slice 1. -/
theorem slice_selection_witness :
    (getCubiesInSlice initState Axis.x 1).length = 9 ∧
    (getCubiesInSlice initState Axis.x 1).Nodup :=
  (slice_selection initState Axis.x 1).2
    ⟨by with_unfolding_all decide, by with_unfolding_all decide⟩ (by norm_num)

/-- One animation step of the `useFrame` callback (`RubiksCube.tsx` lines
88–107): `speed = 5.0 * delta * speedMultiplier`, preliminary step `±speed`
toward `targetAngle = (Math.PI / 2) * direction`, clamped to the remaining
angle `targetAngle - currentAngle` when that is smaller in magnitude. -/
def stepOf (delta speedMult dir angle : ℚ) : ℚ :=
  let speed := 5 * delta * speedMult
  let target := halfPi * dir
  let step0 := if 0 < target then speed else -speed
  let remaining := target - angle
  if |remaining| < |step0| then remaining else step0

/-- The accumulated angle after one tick (`currentAngle.current += step`; the
same step is also applied to the pivot rotation about the move axis). -/
def tickAngle (delta speedMult dir angle : ℚ) : ℚ :=
  angle + stepOf delta speedMult dir angle

/-- The completion test of the tick:
`Math.abs(currentAngle) >= Math.PI / 2 - 0.001`, on which `finishMove` is
called. -/
def tickFinished (delta speedMult dir angle : ℚ) : Bool :=
  decide (halfPi - 1 / 1000 ≤ |tickAngle delta speedMult dir angle|)

lemma stepOf_eq {delta mult d angle : ℚ} (hdelta : 0 < delta) (hmult : 0 < mult)
    (hd : d = 1 ∨ d = -1) (hang : d * angle ≤ halfPi) :
    stepOf delta mult d angle = d * min |5 * delta * mult| |halfPi * d - angle| := by
  have hsp : (0 : ℚ) < 5 * delta * mult := by positivity
  have hPi : (0 : ℚ) < halfPi := by norm_num [halfPi]
  rcases hd with rfl | rfl
  · simp only [stepOf]
    rw [if_pos (by linarith : (0 : ℚ) < halfPi * 1)]
    have hrem : (0 : ℚ) ≤ halfPi * 1 - angle := by linarith
    rw [abs_of_nonneg hrem, abs_of_pos hsp]
    split_ifs with hlt
    · rw [min_eq_right (le_of_lt hlt), one_mul]
    · rw [min_eq_left (not_lt.mp hlt), one_mul]
  · simp only [stepOf]
    rw [if_neg (by linarith : ¬ (0 : ℚ) < halfPi * -1)]
    have hrem : halfPi * -1 - angle ≤ 0 := by linarith
    rw [abs_of_nonpos hrem, abs_neg, abs_of_pos hsp]
    split_ifs with hlt
    · rw [min_eq_right (le_of_lt hlt)]
      ring
    · rw [min_eq_left (not_lt.mp hlt)]
      ring

/-- C6: on every tick during a move (direction ±1, positive frame delta and
speed multiplier, angle not yet past the target) the applied step equals the
direction times the minimum of `|5.0 · speedMultiplier · delta|` and the
magnitude of the remaining angle to the target `90° · direction`; the step is
accumulated into the current angle; and the move completes exactly when the
accumulated angle reaches `90° - 0.001 rad` in magnitude, at which point
`finishMove` runs. -/
theorem tick_step (delta mult d angle : ℚ) (hdelta : 0 < delta) (hmult : 0 < mult)
    (hd : d = 1 ∨ d = -1) (hang : d * angle ≤ halfPi) :
    stepOf delta mult d angle = d * min |5 * delta * mult| |halfPi * d - angle| ∧
    tickAngle delta mult d angle = angle + stepOf delta mult d angle ∧
    (tickFinished delta mult d angle = true ↔
      halfPi - 1 / 1000 ≤ |tickAngle delta mult d angle|) := by
  refine ⟨stepOf_eq hdelta hmult hd hang, rfl, ?_⟩
  unfold tickFinished
  exact decide_eq_true_iff

/-- Witness for C6 at delta 1/100, speed 1, direction 1, angle 0. -/
theorem tick_step_witness :
    stepOf (1 / 100) 1 1 0 = 1 * min |5 * (1 / 100) * 1| |halfPi * 1 - 0| ∧
    tickAngle (1 / 100) 1 1 0 = 0 + stepOf (1 / 100) 1 1 0 ∧
    (tickFinished (1 / 100) 1 1 0 = true ↔
      halfPi - 1 / 1000 ≤ |tickAngle (1 / 100) 1 1 0|) :=
  tick_step (1 / 100) 1 1 0 (by norm_num) (by norm_num) (by norm_num)
    (by norm_num [halfPi])

/-- The angle after a sequence of ticks with per-tick frame delta and speed
multiplier, starting from `currentAngle = 0` as set by `startMove`. -/
def runTicks (d : ℚ) (ticks : List (ℚ × ℚ)) : ℚ :=
  ticks.foldl (fun angle p => tickAngle p.1 p.2 d angle) 0

lemma tick_invariant {delta mult d angle : ℚ} (hdelta : 0 < delta) (hmult : 0 < mult)
    (hd : d = 1 ∨ d = -1) (h0 : 0 ≤ d * angle) (h1 : d * angle ≤ halfPi) :
    0 ≤ d * tickAngle delta mult d angle ∧ d * tickAngle delta mult d angle ≤ halfPi := by
  have hsp : (0 : ℚ) < 5 * delta * mult := by positivity
  have hPi : (0 : ℚ) < halfPi := by norm_num [halfPi]
  have hstep := stepOf_eq hdelta hmult hd h1
  unfold tickAngle
  rw [hstep]
  rcases hd with rfl | rfl
  · have hrem : (0 : ℚ) ≤ halfPi * 1 - angle := by linarith
    rw [abs_of_nonneg hrem, abs_of_pos hsp]
    rcases min_cases (5 * delta * mult) (halfPi * 1 - angle) with ⟨hmin, hle⟩ | ⟨hmin, hle⟩ <;>
      rw [hmin] <;> constructor <;> linarith
  · have hrem : halfPi * -1 - angle ≤ 0 := by linarith
    rw [abs_of_nonpos hrem, abs_of_pos hsp]
    rcases min_cases (5 * delta * mult) (-(halfPi * -1 - angle)) with ⟨hmin, hle⟩ | ⟨hmin, hle⟩ <;>
      rw [hmin] <;> constructor <;> linarith

lemma runTicks_invariant {d : ℚ} (hd : d = 1 ∨ d = -1) :
    ∀ (ticks : List (ℚ × ℚ)) (angle : ℚ),
      (∀ p ∈ ticks, 0 < p.1 ∧ 0 < p.2) → 0 ≤ d * angle → d * angle ≤ halfPi →
      0 ≤ d * (ticks.foldl (fun ang p => tickAngle p.1 p.2 d ang) angle) ∧
        d * (ticks.foldl (fun ang p => tickAngle p.1 p.2 d ang) angle) ≤ halfPi := by
  intro ticks
  induction ticks with
  | nil => intro angle _ h0 h1; exact ⟨h0, h1⟩
  | cons p ps ih =>
    intro angle hpos h0 h1
    have hp := hpos p (by simp)
    have hnext := tick_invariant hp.1 hp.2 hd h0 h1
    exact ih (tickAngle p.1 p.2 d angle) (fun q hq => hpos q (by simp [hq]))
      hnext.1 hnext.2

/-- C10: after every sequence of animation ticks with positive frame deltas
and positive speed multipliers, however large, the accumulated angle never
exceeds a quarter turn in magnitude: the step clamp never rotates the pivot
past the 90° target. -/
theorem angle_clamp (d : ℚ) (ticks : List (ℚ × ℚ)) (hd : d = 1 ∨ d = -1)
    (h : ∀ p ∈ ticks, 0 < p.1 ∧ 0 < p.2) : |runTicks d ticks| ≤ halfPi := by
  have hPi : (0 : ℚ) < halfPi := by norm_num [halfPi]
  have hinv := runTicks_invariant hd ticks 0 h (by simp) (by simp; linarith)
  unfold runTicks
  rcases hd with rfl | rfl
  · rw [abs_le]
    simp only [one_mul] at hinv
    exact ⟨by linarith [hinv.1], hinv.2⟩
  · rw [abs_le]
    constructor <;> nlinarith [hinv.1, hinv.2]

/-- Witness for C10 on two concrete oversized ticks. -/
theorem angle_clamp_witness :
    |runTicks 1 [(1 / 60, 1), (1, 60)]| ≤ halfPi :=
  angle_clamp 1 [(1 / 60, 1), (1, 60)] (by norm_num)
    (by
      intro p hp
      simp only [List.mem_cons, List.mem_singleton, List.not_mem_nil, or_false] at hp
      rcases hp with rfl | rfl <;> norm_num)

/-- The mutable animation state of `RubiksCube.tsx`: `moveQueue`,
`currentMove` (with `isAnimating = currentMove.isSome`), `currentAngle` and
the list of moves for which `onMoveComplete` has fired, in firing order. -/
structure MachineState where
  queue : List QueuedMove
  current : Option QueuedMove
  angle : ℚ
  completed : List Move
deriving DecidableEq

/-- The discrete inputs of the engine: the imperative handle's `addMove` and
`addMoves`, and one `useFrame` tick carrying the frame delta. -/
inductive CubeEvent where
  | addMove (m : Move) (speedMultiplier : ℚ)
  | addMoves (ms : List Move) (speedMultiplier : ℚ)
  | frame (delta : ℚ)

/-- One step of the engine.  `addMove`/`addMoves` push to the queue tail
(callable at any time, including mid-animation).  A frame while a move is in
flight advances the angle by `stepOf` and, when the completion test passes,
performs `finishMove`: fire the completion event for exactly that move and
return to idle.  A frame while idle dequeues the head of a non-empty queue
and starts it (`startMove` resets the angle to 0); starting and finishing
never happen in the same frame. -/
def stepEvent (s : MachineState) (e : CubeEvent) : MachineState :=
  match e with
  | .addMove m sp => { s with queue := s.queue ++ [⟨m, sp⟩] }
  | .addMoves ms sp => { s with queue := s.queue ++ ms.map fun m => ⟨m, sp⟩ }
  | .frame delta =>
    match s.current with
    | some qm =>
      let newAngle := s.angle + stepOf delta qm.speed qm.move.direction s.angle
      if halfPi - 1 / 1000 ≤ |newAngle| then
        ⟨s.queue, none, newAngle, s.completed ++ [qm.move]⟩
      else
        ⟨s.queue, s.current, newAngle, s.completed⟩
    | none =>
      match s.queue with
      | [] => s
      | qm :: rest => ⟨rest, some qm, 0, s.completed⟩

/-- The idle engine before any event. -/
def initMachine : MachineState := ⟨[], none, 0, []⟩

/-- The engine state after a sequence of events. -/
def runEvents (es : List CubeEvent) : MachineState := es.foldl stepEvent initMachine

/-- The moves enqueued by one event, in enqueue order. -/
def eventMoves : CubeEvent → List Move
  | .addMove m _ => [m]
  | .addMoves ms _ => ms
  | .frame _ => []

/-- All moves enqueued by a sequence of events, in enqueue order. -/
def enqueuedOf (es : List CubeEvent) : List Move := es.flatMap eventMoves

/-- The moves accepted but not yet completed: the in-flight move (if any)
followed by the queue. -/
def pendingOf (s : MachineState) : List Move :=
  (s.current.map QueuedMove.move).toList ++ s.queue.map QueuedMove.move

lemma stepEvent_conservation (s : MachineState) (e : CubeEvent) :
    (stepEvent s e).completed ++ pendingOf (stepEvent s e) =
      (s.completed ++ pendingOf s) ++ eventMoves e := by
  obtain ⟨qu, cur, ang, comp⟩ := s
  cases e with
  | addMove m sp => simp [stepEvent, pendingOf, eventMoves]
  | addMoves ms sp => simp [stepEvent, pendingOf, eventMoves, Function.comp_def]
  | frame delta =>
    cases cur with
    | some qm =>
      simp only [stepEvent]
      split_ifs with hfin <;> simp [pendingOf, eventMoves]
    | none =>
      cases qu with
      | nil => simp [stepEvent, pendingOf, eventMoves]
      | cons qm rest => simp [stepEvent, pendingOf, eventMoves]

lemma runEvents_conservation (es : List CubeEvent) :
    (runEvents es).completed ++ pendingOf (runEvents es) = enqueuedOf es := by
  suffices h : ∀ (es : List CubeEvent) (s : MachineState),
      (List.foldl stepEvent s es).completed ++ pendingOf (List.foldl stepEvent s es) =
        (s.completed ++ pendingOf s) ++ enqueuedOf es by
    have := h es initMachine
    simpa [runEvents, initMachine, pendingOf, enqueuedOf] using this
  intro es
  induction es with
  | nil => intro s; simp [enqueuedOf]
  | cons e es ih =>
    intro s
    simp only [List.foldl_cons]
    rw [ih (stepEvent s e), stepEvent_conservation]
    simp [enqueuedOf]

lemma frame_safety (s : MachineState) (q : QueuedMove) (delta : ℚ)
    (h : s.current = some q) :
    ((stepEvent s (.frame delta)).current = some q ∧
      (stepEvent s (.frame delta)).completed = s.completed) ∨
    ((stepEvent s (.frame delta)).current = none ∧
      (stepEvent s (.frame delta)).completed = s.completed ++ [q.move]) := by
  obtain ⟨qu, cur, ang, comp⟩ := s
  cases h
  simp only [stepEvent]
  split_ifs with hfin <;> simp

/-- C3: queue FIFO and exactly-once completion.  First conjunct: after any
event sequence (moves may be appended mid-animation), the completion events
fired so far, followed by the in-flight move and the queue, equal the full
enqueue-order list — so completions fire exactly once per enqueued move, as a
prefix of the enqueue order, never reordered.  Second conjunct: a frame tick
taken while a move is in flight either keeps exactly that move in flight with
no completion fired, or completes exactly that move and returns to idle — a
new move never starts animating before the previous one has completed and the
machine is back to idle. -/
theorem queue_fifo :
    (∀ es : List CubeEvent,
      (runEvents es).completed ++ pendingOf (runEvents es) = enqueuedOf es) ∧
    (∀ (s : MachineState) (q : QueuedMove) (delta : ℚ), s.current = some q →
      ((stepEvent s (.frame delta)).current = some q ∧
        (stepEvent s (.frame delta)).completed = s.completed) ∨
      ((stepEvent s (.frame delta)).current = none ∧
        (stepEvent s (.frame delta)).completed = s.completed ++ [q.move])) :=
  ⟨runEvents_conservation, frame_safety⟩

/-- Witness for C3: the conservation equation on a concrete trace, and the
frame alternative on a concrete in-flight state. -/
theorem queue_fifo_witness :
    ((runEvents [CubeEvent.addMoves [⟨Axis.y, 1, -1⟩, ⟨Axis.x, 1, -1⟩] 1,
        CubeEvent.frame (1 / 2)]).completed ++
      pendingOf (runEvents [CubeEvent.addMoves [⟨Axis.y, 1, -1⟩, ⟨Axis.x, 1, -1⟩] 1,
        CubeEvent.frame (1 / 2)]) =
      enqueuedOf [CubeEvent.addMoves [⟨Axis.y, 1, -1⟩, ⟨Axis.x, 1, -1⟩] 1,
        CubeEvent.frame (1 / 2)]) ∧
    (((stepEvent ⟨[], some ⟨⟨Axis.x, 1, -1⟩, 1⟩, 0, []⟩ (.frame 1)).current =
        some ⟨⟨Axis.x, 1, -1⟩, 1⟩ ∧
      (stepEvent ⟨[], some ⟨⟨Axis.x, 1, -1⟩, 1⟩, 0, []⟩ (.frame 1)).completed = []) ∨
     ((stepEvent ⟨[], some ⟨⟨Axis.x, 1, -1⟩, 1⟩, 0, []⟩ (.frame 1)).current = none ∧
      (stepEvent ⟨[], some ⟨⟨Axis.x, 1, -1⟩, 1⟩, 0, []⟩ (.frame 1)).completed =
        [] ++ [⟨Axis.x, 1, -1⟩])) :=
  ⟨queue_fifo.1 _, queue_fifo.2 ⟨[], some ⟨⟨Axis.x, 1, -1⟩, 1⟩, 0, []⟩
    ⟨⟨Axis.x, 1, -1⟩, 1⟩ 1 rfl⟩

/-- `triggerMoveFromGesture` (`RubiksCube.tsx` lines 221–267): from the face
normal captured at pointer-down and the grabbed mesh world position, classify
the drag as horizontal when `|dx| > |dy|`, pick the rotation axis by the
face/drag branch table, take the slice as the rounded normalized coordinate
of the grabbed cubie along that axis, set the direction from the drag sign,
and flip it when the face normal points to the negative side. -/
def moveFromGesture (normal worldPos : Vec3) (dx dy : ℚ) : Move :=
  if |normal.x| > 1 / 2 then
    if |dx| > |dy| then
      let d : ℚ := if 0 < dx then -1 else 1
      ⟨Axis.y, (round (worldPos.y / gridSize) : ℚ), if normal.x < 0 then d * -1 else d⟩
    else
      let d : ℚ := if 0 < dy then -1 else 1
      ⟨Axis.z, (round (worldPos.z / gridSize) : ℚ), if normal.x < 0 then d * -1 else d⟩
  else if |normal.y| > 1 / 2 then
    if |dx| > |dy| then
      let d : ℚ := if 0 < dx then -1 else 1
      ⟨Axis.z, (round (worldPos.z / gridSize) : ℚ), if normal.y < 0 then d * -1 else d⟩
    else
      let d : ℚ := if 0 < dy then -1 else 1
      ⟨Axis.x, (round (worldPos.x / gridSize) : ℚ), if normal.y < 0 then d * -1 else d⟩
  else
    if |dx| > |dy| then
      let d : ℚ := if 0 < dx then 1 else -1
      ⟨Axis.y, (round (worldPos.y / gridSize) : ℚ), if normal.z < 0 then d * -1 else d⟩
    else
      let d : ℚ := if 0 < dy then 1 else -1
      ⟨Axis.x, (round (worldPos.x / gridSize) : ℚ), if normal.z < 0 then d * -1 else d⟩

/-- The `handlePointerMove` gate plus `triggerMoveFromGesture`: a drag whose
Euclidean length is below the 15 px sensitivity threshold
(`Math.sqrt(dx*dx + dy*dy) < 15`, equivalently `dx² + dy² < 15²` since both
sides are nonnegative) produces nothing; otherwise exactly one move is
enqueued with speed 1. -/
def gestureMove (normal worldPos : Vec3) (dx dy : ℚ) : Option QueuedMove :=
  if dx ^ 2 + dy ^ 2 < 15 ^ 2 then none
  else some ⟨moveFromGesture normal worldPos dx dy, 1⟩

/-- The gesture interpreter as invoked by the component: the world position
it uses is read from the grabbed mesh
(`cubieRefs.current[intersectedCubieIndex].getWorldPosition`). -/
def triggerMove (st : CubeState) (grabbed : Fin 27) (normal : Vec3)
    (dx dy : ℚ) : Move :=
  moveFromGesture normal (st grabbed).position dx dy

/-- Specification-side restatement of the face/drag axis table of C8:
x-face (`|normal.x| > 0.5`): horizontal drag rotates about y, vertical about
z; y-face: horizontal about z, vertical about x; z-face (otherwise):
horizontal about y, vertical about x; horizontal means `|dx| > |dy|`. -/
def gestureAxisSpec (normal : Vec3) (dx dy : ℚ) : Axis :=
  if |normal.x| > 1 / 2 then
    if |dx| > |dy| then Axis.y else Axis.z
  else if |normal.y| > 1 / 2 then
    if |dx| > |dy| then Axis.z else Axis.x
  else
    if |dx| > |dy| then Axis.y else Axis.x

/-- C8: a drag below the 15 px Euclidean threshold produces no move; a drag
at or above it produces exactly one move, enqueued with speed 1, whose axis
follows the face/drag table and whose slice is the rounded normalized world
coordinate of the grabbed cubie along that axis. -/
theorem gesture_move (normal worldPos : Vec3) (dx dy : ℚ) :
    (dx ^ 2 + dy ^ 2 < 15 ^ 2 → gestureMove normal worldPos dx dy = none) ∧
    (15 ^ 2 ≤ dx ^ 2 + dy ^ 2 →
      gestureMove normal worldPos dx dy =
        some ⟨moveFromGesture normal worldPos dx dy, 1⟩ ∧
      (moveFromGesture normal worldPos dx dy).axis = gestureAxisSpec normal dx dy ∧
      (moveFromGesture normal worldPos dx dy).slice =
        (round (axisCoord (gestureAxisSpec normal dx dy) worldPos / gridSize) : ℚ)) := by
  constructor
  · intro h
    simp only [gestureMove]
    rw [if_pos h]
  · intro h
    refine ⟨by simp only [gestureMove]; rw [if_neg (not_lt.mpr h)], ?_, ?_⟩ <;>
      · unfold moveFromGesture gestureAxisSpec
        split_ifs <;> rfl

/-- Witness for C8: an x-face grab dragged 20 px to the right. -/
theorem gesture_move_witness :
    gestureMove ⟨1, 0, 0⟩ ⟨gridSize, gridSize, gridSize⟩ 20 0 =
      some ⟨moveFromGesture ⟨1, 0, 0⟩ ⟨gridSize, gridSize, gridSize⟩ 20 0, 1⟩ ∧
    (moveFromGesture ⟨1, 0, 0⟩ ⟨gridSize, gridSize, gridSize⟩ 20 0).axis =
      gestureAxisSpec ⟨1, 0, 0⟩ 20 0 ∧
    (moveFromGesture ⟨1, 0, 0⟩ ⟨gridSize, gridSize, gridSize⟩ 20 0).slice =
      (round (axisCoord (gestureAxisSpec ⟨1, 0, 0⟩ 20 0)
        ⟨gridSize, gridSize, gridSize⟩ / gridSize) : ℚ) :=
  (gesture_move ⟨1, 0, 0⟩ ⟨gridSize, gridSize, gridSize⟩ 20 0).2 (by norm_num)

/-- Counterexample to C9 as stated: two invocations of the gesture
interpreter on the solved cube with identical `(faceNormal, dx, dy)` — the
front-face normal and a 20 px rightward drag — but grabbing different
front-face cubies (the up-center and the very center) produce different
moves: the slice comes from the grabbed cubie's world position, which is not
among the inputs the claim fixes. -/
theorem gesture_determinism_cex :
    ¬ (triggerMove initState 17 ⟨0, 0, 1⟩ 20 0 =
       triggerMove initState 14 ⟨0, 0, 1⟩ 20 0) := by
  with_unfolding_all decide

/-- C9 amended: the produced move is a function of the face normal, the
grabbed cubie's world position, and the drag delta — two invocations agreeing
on `(faceNormal, grabbed world position, dx, dy)` produce the identical move,
whatever the rest of the cube state is. -/
theorem gesture_deterministic (st1 st2 : CubeState) (i1 i2 : Fin 27)
    (normal : Vec3) (dx dy : ℚ)
    (hpos : (st1 i1).position = (st2 i2).position) :
    triggerMove st1 i1 normal dx dy = triggerMove st2 i2 normal dx dy := by
  unfold triggerMove
  rw [hpos]

/-- Witness for the amended C9 on the solved cube. -/
theorem gesture_deterministic_witness :
    triggerMove initState 17 ⟨0, 0, 1⟩ 20 0 =
      triggerMove initState 17 ⟨0, 0, 1⟩ 20 0 :=
  gesture_deterministic initState initState 17 17 ⟨0, 0, 1⟩ 20 0 rfl
